import Mathlib

/-!
Verification development for the solvis call-graph extractor
(src/parsing.js). The JavaScript source is shallowly embedded:

* JS arrays become `List`, JS `Map` becomes an insertion-ordered
  association list (`mapSet` / `mapGet` mirror `Map.set` / `Map.get`);
* JS `undefined` / `null` for strings become `Option String`
  (`jsUndef` / `jsNull` render them inside template literals);
* the recursive functions `processData`, `profileData` and
  `findAndRenameCall` take a fuel parameter bounding recursion depth:
  `none` models a non-terminating run, `some (Except.error ())` models a
  thrown `TypeError` (property access on `undefined`) or a failed
  `readFileSync`, and `some (Except.ok r)` a normal return of `r`;
* the solidity-parser-antlr visitor is modelled by a pre-order traversal
  of an expression tree (`visitExpr`), statements being modelled as
  expression statements; the Node `path` utilities, declared a simple
  out-of-scope utility by the interface description, are modelled by
  `pathJoin` / `pathParseName` (segment-normalizing join, basename
  without extension).
-/

namespace Solvis

/-- Rendering of a possibly-undefined string inside a JS template
literal: `undefined` prints as the text "undefined". -/
def jsUndef : Option String → String
  | some s => s
  | none => "undefined"

/-- Rendering of a possibly-null string inside a JS template literal:
`null` prints as the text "null". -/
def jsNull : Option String → String
  | some s => s
  | none => "null"

/-- JS `Array.prototype.includes` on an array of strings. -/
def jsIncludes (l : List String) (s : String) : Bool :=
  l.any (fun x => decide (x = s))

/-- JS `Array.prototype.includes` applied to a possibly-undefined
name: `includes(undefined)` on a string array is always false. -/
def jsIncludesOpt (l : List String) : Option String → Bool
  | some s => jsIncludes l s
  | none => false

/-- JS `a.indexOf(b) > -1`: substring containment test. -/
def strContainsSub (s pat : String) : Bool :=
  (List.range (s.data.length + 1)).any
    (fun i => pat.data.isPrefixOf (s.data.drop i))

/-- Splitting of a character list at every occurrence of a separator
character (the splitting underlying `String.splitOn` for a one-character
separator). -/
def splitChar (sep : Char) : List Char → List (List Char)
  | [] => [[]]
  | c :: rest =>
    match splitChar sep rest with
    | [] => if c = sep then [[], [c]] else [[c]]
    | h :: t => if c = sep then [] :: h :: t else (c :: h) :: t

/-- Interleaving of a separator character between character lists (the
joining underlying `String.intercalate` for a one-character separator). -/
def joinChar (sep : Char) : List (List Char) → List Char
  | [] => []
  | [x] => x
  | x :: xs => x ++ sep :: joinChar sep xs

/-- Segments of a path string. -/
def pathSegs (s : String) : List String :=
  (splitChar (Char.ofNat 47) s.data).map String.mk

/-- Model of the Node `path.join` utility (declared a simple
out-of-scope utility by the interface description): split both sides on
the separator, drop empty and current-directory segments, let a
parent-directory segment pop the previous one, and rejoin. -/
def pathJoin (a b : String) : String :=
  let segs := pathSegs a ++ pathSegs b
  let norm := segs.foldl
    (fun acc seg =>
      if seg = "" then acc
      else if seg = "." then acc
      else if seg = ".." then acc.dropLast
      else acc ++ [seg]) []
  String.mk (joinChar (Char.ofNat 47) (norm.map String.data))

/-- Model of `path.parse(p).name` (simple out-of-scope utility):
the last path component with its final extension removed. -/
def pathParseName (p : String) : String :=
  let base := (pathSegs p).getLastD ""
  let parts := (splitChar (Char.ofNat 46) base.data).map String.mk
  if parts.length ≤ 1 then base
  else String.mk (joinChar (Char.ofNat 46) (parts.dropLast.map String.data))

/-- Import-path resolution exactly as in `processData` and
`profileData`: a relative import text (leading dot) is joined onto the
parent directory of the importing file, while any other import text is
joined onto the node_modules root. -/
def resolveImportPath (solidityFile p : String) : String :=
  if p.data.head? = some '.' then pathJoin (pathJoin solidityFile "../") p
  else pathJoin "node_modules" p

/-- JS `Map.set` on an insertion-ordered association list: an existing
key is updated in place, a new key is appended. -/
def mapSet {α : Type} : List (String × α) → String → α → List (String × α)
  | [], k, v => [(k, v)]
  | (k2, v2) :: rest, k, v =>
    if k2 = k then (k, v) :: rest else (k2, v2) :: mapSet rest k v

/-- JS `Map.get` on an insertion-ordered association list. -/
def mapGet {α : Type} : List (String × α) → String → Option α
  | [], _ => none
  | (k2, v) :: rest, k => if k2 = k then some v else mapGet rest k

/-! ### AST model -/

/-- Type annotation of a parameter or variable declaration: the parser
exposes a direct `name` or, for user-defined types, a `namePath`. -/
structure TypeName where
  name : Option String
  namePath : Option String

/-- VariableDeclaration node: the profiler stores the whole node and
the resolver later reads its `typeName`. -/
structure VarDecl where
  name : String
  typeName : TypeName

/-- Expression nodes relevant to call extraction and resolution. The
`other` constructor stands for every remaining node kind (literals,
type names in cast position, ...), which carry no visited children
relevant to the two visitor handlers. -/
inductive Expr where
  | identifier (name : String)
  | memberAccess (expr : Expr) (memberName : String)
  | indexAccess (base index : Expr)
  | functionCall (expr : Expr) (arguments : List Expr)
  | other

/-- JS dynamic `type` tag of an expression node. -/
def Expr.nodeType : Expr → String
  | .identifier _ => "Identifier"
  | .memberAccess _ _ => "MemberAccess"
  | .indexAccess _ _ => "IndexAccess"
  | .functionCall _ _ => "FunctionCall"
  | .other => "Other"

/-- JS property access `node.name`: defined only on Identifier nodes,
`undefined` otherwise. -/
def Expr.exprName : Expr → Option String
  | .identifier n => some n
  | _ => none

/-- JS `Object.hasOwnProperty(node, "arguments")` together with the
property itself: only FunctionCall nodes own an `arguments` array. -/
def Expr.exprArguments : Expr → Option (List Expr)
  | .functionCall _ args => some args
  | _ => none

/-- FunctionDefinition node as used by `processData`: statements are
modelled as expression statements (the body list's length is what the
self-call guard reads). -/
structure FunctionDef where
  name : Option String
  isConstructor : Bool
  modifiers : List String
  parameters : List TypeName
  body : Option (List Expr)

/-- ContractDefinition node with the children the two passes visit, in
document order. `varDecls` flattens every VariableDeclaration node
appearing inside the contract, in document order, as the profiler's
blanket VariableDeclaration visitor sees them. -/
structure ContractDef where
  name : String
  baseContracts : List String
  functions : List FunctionDef
  varDecls : List VarDecl
  events : List String
  structs : List String

/-- Parsed source file: import directive texts (at the top of the file,
before contract definitions) and contract definitions, in document
order. -/
structure SolFile where
  imports : List String
  contracts : List ContractDef

/-- File system: resolved path to parsed file. `readFileSync` plus
`parser.parse` become a lookup. -/
abbrev Fs := List (String × SolFile)

/-- Look a file up by its resolved path. -/
def fsLookup (fs : Fs) (p : String) : Option SolFile :=
  (fs.find? (fun e => decide (e.1 = p))).map (fun e => e.2)

/-! ### Call extraction visitor -/

/-- Raw call reference as pushed by the visitor: callee name plus raw
argument expressions. -/
structure Call where
  name : String
  args : Option (List Expr)

/-- Source `isKeywordCall`: the lone built-in property treated as a
keyword call. -/
def isKeywordCall (word : String) : Bool :=
  decide (word = "length")

/-- Source `isKeywordFunction`, lifted to the possibly-undefined
`expression.name` the caller feeds it. -/
def isKeywordFunction : Option String → Bool
  | some w => decide (w = "require") || decide (w = "revert") || decide (w = "assert")
  | none => false

/-- Source `isCountableStatement`: the callee name is not a built-in
assertion, not ignored, not a contract name, and not undefined. -/
def isCountableStatement (exprName : Option String)
    (contractsList ignoresList : List String) : Bool :=
  !isKeywordFunction exprName
    && !jsIncludesOpt ignoresList exprName
    && !jsIncludesOpt contractsList exprName
    && !(decide (exprName = none))

/-- JS strict inequality `fDef.name !== node.expression.name` where the
left side is a possibly-null and the right side a possibly-undefined
string: `null !== undefined` holds, so the comparison is false only for
two equal strings. -/
def fcNameDiffers : Option String → Option String → Bool
  | some a, some b => !(decide (a = b))
  | _, _ => true

/-- Source `parserFunctionVisitor`, as the action of its two handlers
on one visited node: a FunctionCall node runs the direct-call handler,
a MemberAccess node the member-access handler, anything else records
nothing. `stmtCount` is `fDef.body.statements.length`. -/
def parserFunctionVisitor (contractsList ignoresList : List String)
    (fDefName : Option String) (stmtCount : Nat) : Expr → List Call
  | Expr.functionCall callee args =>
    if fcNameDiffers fDefName callee.exprName
        && decide (1 < stmtCount)
        && isCountableStatement callee.exprName contractsList ignoresList then
      match callee.exprName with
      | some n => [⟨n, some args⟩]
      | none => []
    else []
  | Expr.memberAccess obj memberName =>
    if (!(decide (obj.nodeType = "Identifier"))
          || jsIncludesOpt contractsList obj.exprName
          || decide (obj.exprName = some "super"))
        && !(decide (obj.nodeType = "IndexAccess")) then
      if isKeywordCall memberName then []
      else
        match obj.exprArguments with
        | some args => [⟨memberName, some args⟩]
        | none => [⟨memberName, some []⟩]
    else []
  | _ => []

mutual

/-- Pre-order traversal of one expression, firing the handler at every
node, as `parser.visit` does over a function body sub-tree. -/
def visitExpr (h : Expr → List Call) : Expr → List Call
  | Expr.identifier n => h (Expr.identifier n)
  | Expr.memberAccess obj m => h (Expr.memberAccess obj m) ++ visitExpr h obj
  | Expr.indexAccess a b =>
    h (Expr.indexAccess a b) ++ visitExpr h a ++ visitExpr h b
  | Expr.functionCall c args =>
    h (Expr.functionCall c args) ++ visitExpr h c ++ visitExprList h args
  | Expr.other => h Expr.other

/-- Traversal of a list of sibling expressions, left to right. -/
def visitExprList (h : Expr → List Call) : List Expr → List Call
  | [] => []
  | e :: es => visitExpr h e ++ visitExprList h es

end

/-- Sub-visit of a function definition's body, guarded on a null body
exactly as in `processData` (`if (fDef.body !== null)`). -/
def visitFunctionBody (contractsList ignoresList : List String)
    (fDef : FunctionDef) : List Call :=
  match fDef.body with
  | none => []
  | some stmts =>
    visitExprList
      (parserFunctionVisitor contractsList ignoresList fDef.name stmts.length)
      stmts

/-! ### Structural extraction (`processData`) -/

/-- Per-function record pushed by `processData`: name, signature string
and raw outbound calls. -/
structure MethodRec where
  functionName : Option String
  functionDefinition : String
  callMethods : List Call

/-- ContractRecord as `processData` builds it: one per processed file. -/
structure ContractInfo where
  contractName : Option String
  extendsContracts : List String
  importList : List String
  methodCalls : List MethodRec

/-- Result of a JS computation that may diverge (`none`), throw
(`some (Except.error ())`) or return (`some (Except.ok a)`). -/
abbrev JsRun (α : Type) : Type := Option (Except Unit α)

/-- Sequencing of JS computations: divergence and thrown exceptions
propagate, a normal value feeds the continuation. -/
def jsBind {α β : Type} (x : JsRun α) (f : α → JsRun β) : JsRun β :=
  match x with
  | none => none
  | some (Except.error e) => some (Except.error e)
  | some (Except.ok a) => f a

/-- Membership test on the visited list (entries may be the undefined
path produced by a failed import search). -/
def visContains (l : List (Option String)) (x : Option String) : Bool :=
  l.any (fun y => decide (y = x))

/-- Membership test on a list of visited path strings. -/
def visContainsS (l : List String) (x : String) : Bool :=
  l.any (fun y => decide (y = x))

/-- Type string of a declared parameter or variable:
`typeName.name === undefined ? typeName.namePath : typeName.name`. -/
def typeNameStr (t : TypeName) : Option String :=
  match t.name with
  | some n => some n
  | none => t.namePath

/-- Type of the recursive extractor with its fuel, file system, ignore
and contract lists already fixed: path and visited list remain. -/
abbrev PdRec : Type :=
  Option String → List (Option String) →
    JsRun (List ContractInfo × List (Option String))

/-- Body of one constructor-modifier iteration of `processData`: locate
the import containing the modifier name and recurse when unvisited. -/
def modStepBody (pd : PdRec) (importList : List String) (modName : String)
    (s2 : List ContractInfo × List (Option String)) :
    JsRun (List ContractInfo × List (Option String)) :=
  let nodePath := (importList.filter (fun imp => strContainsSub imp modName)).head?
  if visContains s2.2 nodePath then some (Except.ok s2)
  else
    jsBind (pd nodePath (s2.2 ++ [nodePath]))
      (fun r => some (Except.ok (s2.1 ++ r.1, r.2)))

/-- Body of one function-definition iteration of `processData`: a
constructor walks its modifiers, any other function contributes a
`MethodRec` built from the contract name, the signature fold and the
body sub-visit. -/
def funcStepBody (pd : PdRec) (contractsList ignoresList : List String)
    (contractName : Option String) (importList : List String)
    (fDef : FunctionDef)
    (s : List MethodRec × List ContractInfo × List (Option String)) :
    JsRun (List MethodRec × List ContractInfo × List (Option String)) :=
  if fDef.isConstructor then
    jsBind (fDef.modifiers.foldl
        (fun st2 modName => jsBind st2 (modStepBody pd importList modName))
        (some (Except.ok (s.2.1, s.2.2))))
      (fun s3 => some (Except.ok (s.1, s3.1, s3.2)))
  else
    let callMethods := visitFunctionBody contractsList ignoresList fDef
    let functionDefinition := fDef.parameters.foldl
      (fun acc p => acc ++ ":" ++ jsUndef (typeNameStr p))
      (jsUndef contractName ++ ":" ++ jsNull fDef.name)
    some (Except.ok
      (s.1 ++ [⟨fDef.name, functionDefinition, callMethods⟩], s.2.1, s.2.2))

/-- Body of one inheritance-specifier iteration of `processData`:
recurse into the unvisited base's import, then push the base name. -/
def inhStepBody (pd : PdRec) (importList : List String) (base : String)
    (t : List ContractInfo × List (Option String) × List String) :
    JsRun (List ContractInfo × List (Option String) × List String) :=
  let nodePath := (importList.filter (fun imp => strContainsSub imp base)).head?
  if visContains t.2.1 nodePath then
    some (Except.ok (t.1, t.2.1, t.2.2 ++ [base]))
  else
    jsBind (pd nodePath (t.2.1 ++ [nodePath]))
      (fun r => some (Except.ok (t.1 ++ r.1, r.2, t.2.2 ++ [base])))

/-- Body of one final-import iteration of `processData`: recurse into
the import when unvisited. -/
def impStepBody (pd : PdRec) (nodePath : String)
    (u : List ContractInfo × List (Option String)) :
    JsRun (List ContractInfo × List (Option String)) :=
  if visContains u.2 (some nodePath) then some (Except.ok u)
  else
    jsBind (pd (some nodePath) (u.2 ++ [some nodePath]))
      (fun r => some (Except.ok (u.1 ++ r.1, r.2)))

/-- Source `processData`: reads and parses the file (a `none` path or a
missing file throws), collects the contract name (last contract
definition wins) and resolved import paths, scans function definitions
(a constructor recurses into the import matching each modifier name,
any other function gets a `MethodRec` whose calls come from the body
sub-visit), scans inheritance specifiers (recursing into unvisited
bases and pushing every base name), finally recurses into every import
not yet visited, and appends the file's own record. The visited list is
pushed to before each recursion and threaded through; the fuel bounds
the recursion depth. -/
def processData : Nat → Fs → Option String → List (Option String) →
    List String → List String →
    JsRun (List ContractInfo × List (Option String))
  | 0, _, _, _, _, _ => none
  | Nat.succ fuel, fs, fileOpt, importVisited, ignoresList, contractsList =>
    match fileOpt with
    | none => some (Except.error ())
    | some file =>
      match fsLookup fs file with
      | none => some (Except.error ())
      | some ast =>
        let contractName := (ast.contracts.map (fun c => c.name)).getLast?
        let importList := ast.imports.map (fun t => resolveImportPath file t)
        jsBind ((ast.contracts.flatMap (fun c => c.functions)).foldl
            (fun st fDef => jsBind st
              (funcStepBody
                (fun f v => processData fuel fs f v ignoresList contractsList)
                contractsList ignoresList contractName importList fDef))
            (some (Except.ok ([], [], importVisited))))
          (fun s =>
            jsBind ((ast.contracts.flatMap (fun c => c.baseContracts)).foldl
                (fun st base => jsBind st
                  (inhStepBody
                    (fun f v => processData fuel fs f v ignoresList contractsList)
                    importList base))
                (some (Except.ok (s.2.1, s.2.2, []))))
              (fun t =>
                jsBind (importList.foldl
                    (fun st nodePath => jsBind st
                      (impStepBody
                        (fun f v => processData fuel fs f v ignoresList contractsList)
                        nodePath))
                    (some (Except.ok (t.1, t.2.1))))
                  (fun u => some (Except.ok
                    (u.1 ++ [⟨contractName, t.2.2, importList, s.1⟩], u.2)))))

/-! ### Profiling (`profileData`) -/

/-- Variable-type registry: contract name to the contract's variable
map, both insertion-ordered as JS `Map`s. -/
abbrev VarTypeMap : Type := List (String × List (String × VarDecl))

/-- Source `profileData`: recurses into unvisited imports, then pushes
every event and struct name onto the ignore list, every contract name
onto the contract list (the last one becoming the active contract
name), collects every variable declaration of the file into one map
keyed by variable name, and stores that map in the registry under the
active contract name (the empty string when the file has no contract).
Returns the updated `(visited, ignoresList, contractsList, registry)`. -/
def profileData : Nat → Fs → String → List String → List String →
    List String → VarTypeMap →
    JsRun (List String × List String × List String × VarTypeMap)
  | 0, _, _, _, _, _, _ => none
  | Nat.succ fuel, fs, file, visited, ignoresList, contractsList, variableType =>
    match fsLookup fs file with
    | none => some (Except.error ())
    | some ast =>
      jsBind (ast.imports.foldl (fun st imp => jsBind st (fun s =>
          let nodePath := resolveImportPath file imp
          if visContainsS s.1 nodePath then some (Except.ok s)
          else
            profileData fuel fs nodePath (s.1 ++ [nodePath]) s.2.1 s.2.2.1 s.2.2.2))
        (some (Except.ok (visited, ignoresList, contractsList, variableType))))
        (fun s =>
          let contractName :=
            ((ast.contracts.map (fun c => c.name)).getLast?).getD ""
          let ignores2 := s.2.1 ++ ast.contracts.flatMap (fun c => c.events ++ c.structs)
          let contracts2 := s.2.2.1 ++ ast.contracts.map (fun c => c.name)
          let contractVariables := (ast.contracts.flatMap (fun c => c.varDecls)).foldl
            (fun m vd => mapSet m vd.name vd) []
          some (Except.ok
            (s.1, ignores2, contracts2,
             mapSet s.2.2.2 contractName contractVariables)))

/-! ### Call resolution (`findAndRenameCall`) -/

/-- Global first-match variable-type lookup: the nested `forEach` over
the registry assigns the argument type from the first entry whose
variable name matches and whose declared type text is defined. -/
def lookupVarType (variableTypeMap : VarTypeMap) (n : String) : Option String :=
  variableTypeMap.foldl
    (fun acc entry =>
      entry.2.foldl
        (fun acc2 kv =>
          if decide (kv.1 = n) && acc2.isNone then typeNameStr kv.2.typeName
          else acc2)
        acc)
    none

/-- Construction of the resolved identifier after a successful local
search: contract name, callee name, then one segment per argument
(declared type of an identifier, `address` for a `sender` member,
`uint256` for a `value` member, nothing otherwise). -/
def buildDefinition (contractName : Option String) (callName : String)
    (variableTypeMap : VarTypeMap) (args : Option (List Expr)) : String :=
  let base := jsUndef contractName ++ ":" ++ callName
  match args with
  | none => base
  | some l =>
    l.foldl
      (fun acc p =>
        match p with
        | Expr.identifier n => acc ++ ":" ++ jsUndef (lookupVarType variableTypeMap n)
        | Expr.memberAccess _ m =>
          if m = "sender" then acc ++ ":address"
          else if m = "value" then acc ++ ":uint256"
          else acc
        | _ => acc)
      base

/-- Aggregation of one `forEach` of recursive resolver calls: each
non-undefined result overwrites the accumulator (last write wins),
exceptions and divergence abort the iteration. -/
def visitFold (recur : Option ContractInfo → JsRun (Option String)) :
    List (Option ContractInfo) → Option String → JsRun (Option String)
  | [], found => some (Except.ok found)
  | t :: ts, found =>
    match recur t with
    | none => none
    | some (Except.error e) => some (Except.error e)
    | some (Except.ok r) =>
      visitFold recur ts (match r with | some s => some s | none => found)

/-- Source `findAndRenameCall`: an absent universe resolves to
undefined; an absent current record makes the `methodCalls` access
throw; a local match returns the built identifier immediately;
otherwise every ancestor in declaration order is resolved recursively
(last non-undefined result wins), and only if that leaves the result
undefined, every import whose parsed contract name is not an ancestor
is tried the same way. -/
def findAndRenameCall : Nat → Option (List ContractInfo) → ContractInfo →
    Option ContractInfo → VarTypeMap → Call → JsRun (Option String)
  | 0, _, _, _, _, _ => none
  | Nat.succ fuel, contracts, contractRoot, contractInfo, variableTypeMap, call =>
    match contracts with
    | none => some (Except.ok none)
    | some cs =>
      match contractInfo with
      | none => some (Except.error ())
      | some info =>
        match info.methodCalls.find? (fun m => decide (m.functionName = some call.name)) with
        | some _ =>
          some (Except.ok (some (buildDefinition info.contractName call.name
            variableTypeMap call.args)))
        | none =>
          let ancTargets := info.extendsContracts.map
            (fun e => cs.find? (fun c => decide (c.contractName = some e)))
          match visitFold
              (fun t => findAndRenameCall fuel contracts contractRoot t
                variableTypeMap call)
              ancTargets none with
          | none => none
          | some (Except.error e) => some (Except.error e)
          | some (Except.ok (some s)) => some (Except.ok (some s))
          | some (Except.ok none) =>
            let impTargets :=
              (info.importList.filter
                (fun imp => !jsIncludes info.extendsContracts (pathParseName imp))).map
                (fun imp => cs.find?
                  (fun c => decide (c.contractName = some (pathParseName imp))))
            visitFold
              (fun t => findAndRenameCall fuel contracts contractRoot t
                variableTypeMap call)
              impTargets none

/-! ### Linking (`renameToSymLinks`) -/

/-- Entry of `contractsArray`: the entry file and its extracted
universe. -/
structure ContractsEntry where
  file : String
  contract : List ContractInfo

/-- CallRef after linking: the `name` field has been overwritten with
the resolver's result (a resolved identifier or undefined). -/
structure RCall where
  name : Option String
  args : Option (List Expr)

/-- FunctionRecord after linking. -/
structure RMethodRec where
  functionName : Option String
  functionDefinition : String
  callMethods : List RCall

/-- ContractRecord after linking. -/
structure RContractInfo where
  contractName : Option String
  extendsContracts : List String
  importList : List String
  methodCalls : List RMethodRec

/-- Universe entry after linking. -/
structure REntry where
  file : String
  contract : List RContractInfo

/-- Elementwise transformation of a JS array, with divergence and
exceptions propagating out of the iteration. -/
def jsMapThrow {α β : Type} (f : α → JsRun β) : List α → JsRun (List β)
  | [] => some (Except.ok [])
  | a :: as => jsBind (f a) (fun b =>
      jsBind (jsMapThrow f as) (fun bs => some (Except.ok (b :: bs))))

/-- Source `renameToSymLinks`: for every entry file, every contract
record and every method, each raw call's `name` field is overwritten in
place with the resolver's verdict, the resolver being invoked with that
entry's universe and the record as both root and current contract. -/
def renameToSymLinks (fuel : Nat) (allContractsData : List ContractsEntry)
    (variableTypeMap : VarTypeMap) : JsRun (List REntry) :=
  jsMapThrow
    (fun entry =>
      jsBind (jsMapThrow
        (fun contractInfo =>
          jsBind (jsMapThrow
            (fun method =>
              jsBind (jsMapThrow
                (fun call =>
                  jsBind (findAndRenameCall fuel (some entry.contract)
                      contractInfo (some contractInfo) variableTypeMap call)
                    (fun r => some (Except.ok (⟨r, call.args⟩ : RCall))))
                method.callMethods)
                (fun calls2 => some (Except.ok
                  (⟨method.functionName, method.functionDefinition, calls2⟩ : RMethodRec))))
            contractInfo.methodCalls)
            (fun methods2 => some (Except.ok
              (⟨contractInfo.contractName, contractInfo.extendsContracts,
                contractInfo.importList, methods2⟩ : RContractInfo))))
        entry.contract)
        (fun contracts2 => some (Except.ok (⟨entry.file, contracts2⟩ : REntry))))
    allContractsData

/-! ### Statement-level definitions used by the claims -/

/-- Concatenation of colon-prefixed type segments. -/
def segmentsStr : List String → String
  | [] => ""
  | t :: ts => ":" ++ t ++ segmentsStr ts

/-- Shape of a resolved identifier: a contract part, a function part,
then zero or more colon-separated type segments. -/
def isResolvedForm (s : String) : Prop :=
  ∃ c f ts, s = c ++ ":" ++ f ++ segmentsStr ts

/-- Direct-call statement `callee(arg1, ..., argk)` with identifier
callee and identifier arguments. -/
def mkCallStmt (p : String × List String) : Expr :=
  Expr.functionCall (Expr.identifier p.1) (p.2.map Expr.identifier)

/-- Function definition whose body is a list of direct-call statements. -/
def mkCallFDef (fname : Option String) (pairs : List (String × List String)) :
    FunctionDef :=
  ⟨fname, false, [], [], some (pairs.map mkCallStmt)⟩

/-- No contract record of the universe defines a function with the
given name. -/
def noFunctionNamed (cs : List ContractInfo) (n : String) : Bool :=
  cs.all (fun c =>
    (c.methodCalls.find? (fun m => decide (m.functionName = some n))).isNone)

/-- Acyclicity certificate for the resolver's reference graph: every
ancestor reference and every followed import reference of every record
finds a record of strictly smaller rank. -/
def refsDecrease (cs : List ContractInfo) (rk : Option String → Nat) : Bool :=
  cs.all (fun c =>
    (c.extendsContracts.all (fun e =>
      match cs.find? (fun d => decide (d.contractName = some e)) with
      | some t => decide (rk t.contractName < rk c.contractName)
      | none => false))
    && ((c.importList.filter
          (fun imp => !jsIncludes c.extendsContracts (pathParseName imp))).all
        (fun imp =>
          match cs.find?
              (fun d => decide (d.contractName = some (pathParseName imp))) with
          | some t => decide (rk t.contractName < rk c.contractName)
          | none => false)))

/-- Two contract records that extend each other and define no function:
the smallest cyclic resolver input. -/
def c5A : ContractInfo := ⟨some "A", ["B"], [], []⟩

/-- Second record of the cyclic pair. -/
def c5B : ContractInfo := ⟨some "B", ["A"], [], []⟩

/-- Cyclic universe for the resolver. -/
def c5Universe : List ContractInfo := [c5A, c5B]

/-- Divergence of the resolver on the cyclic universe: no recursion
depth suffices, i.e. the JS original never returns. -/
def c5CycleDiverges : Prop :=
  ∀ fuel : Nat,
    findAndRenameCall fuel (some c5Universe) c5A (some c5A) [] ⟨"f", some []⟩ = none

/-- Entry file of the cyclic-import counterexample: contract A, whose
file imports the sibling file of contract B. -/
def c4FileA : SolFile := ⟨["./B.sol"], [⟨"A", [], [], [], [], []⟩]⟩

/-- Second file of the cyclic-import counterexample: contract B, whose
file imports the entry file of contract A back. -/
def c4FileB : SolFile := ⟨["./A.sol"], [⟨"B", [], [], [], [], []⟩]⟩

/-- File system with the two-file import cycle `d/A.sol ↔ d/B.sol`. -/
def c4Fs : Fs := [("d/A.sol", c4FileA), ("d/B.sol", c4FileB)]

/-- Library file declaring `struct MyStruct` inside contract L. -/
def c7FileL : SolFile := ⟨[], [⟨"L", [], [], [], [], ["MyStruct"]⟩]⟩

/-- Entry file: contract M imports the library and its function `f`
invokes the struct constructor through the qualified member
`L.MyStruct(...)`. -/
def c7FileM : SolFile :=
  ⟨["L.sol"],
   [⟨"M", [],
     [⟨some "f", false, [], [],
       some [Expr.functionCall
         (Expr.memberAccess (Expr.identifier "L") "MyStruct") [Expr.other]]⟩],
     [], [], []⟩]⟩

/-- File system for the ignore-propagation counterexample. -/
def c7Fs : Fs := [("M.sol", c7FileM), ("node_modules/L.sol", c7FileL)]

/-- File defining two contracts, A owning variable `x` and B owning
variable `y`. -/
def c9File : SolFile :=
  ⟨[], [⟨"A", [], [], [⟨"x", ⟨some "uint256", none⟩⟩], [], []⟩,
        ⟨"B", [], [], [⟨"y", ⟨some "address", none⟩⟩], [], []⟩]⟩

/-- File system for the variable-attribution counterexample. -/
def c9Fs : Fs := [("m.sol", c9File)]

/-- Growth invariant of one extraction phase: the record count grows by
exactly as much as the visited list, the initial visited list is a
prefix of the final one, and freedom from duplicates is preserved. -/
def GrowthOk (p0 : Nat) (v0 : List (Option String)) (p1 : Nat)
    (v1 : List (Option String)) : Prop :=
  p1 + v0.length = p0 + v1.length ∧ v0 <+: v1 ∧ (v0.Nodup → v1.Nodup)

/-! ## Theorems -/

/-- Sequencing a returned value just applies the continuation. -/
theorem jsBind_ok {α β : Type} (a : α) (f : α → JsRun β) :
    jsBind (some (Except.ok a)) f = f a := rfl

/-- Inversion of a successful sequencing: the first computation
returned a value the continuation accepted. -/
theorem jsBind_eq_ok {α β : Type} {x : JsRun α} {f : α → JsRun β} {b : β}
    (h : jsBind x f = some (Except.ok b)) :
    ∃ a, x = some (Except.ok a) ∧ f a = some (Except.ok b) := by
  cases x with
  | none => exact absurd h (by simp [jsBind])
  | some e =>
    cases e with
    | error e => exact absurd h (by simp [jsBind])
    | ok a => exact ⟨a, rfl, h⟩

/-- JS `includes` is list membership. -/
theorem jsIncludes_eq_mem (l : List String) (s : String) :
    jsIncludes l s = decide (s ∈ l) := by
  rw [Bool.eq_iff_iff]
  simp only [jsIncludes, List.any_eq_true, decide_eq_true_eq]
  constructor
  · rintro ⟨x, hx, rfl⟩; exact hx
  · intro hs; exact ⟨s, hs, rfl⟩

/-- Resolver helper: a local match returns the identifier built from
the current record's own contract name, whatever the universe holds. -/
theorem resolveLocal (fuel : Nat) (cs : List ContractInfo)
    (root info : ContractInfo) (vm : VarTypeMap) (call : Call)
    (h : (info.methodCalls.find?
        (fun m => decide (m.functionName = some call.name))).isSome = true) :
    findAndRenameCall (fuel + 1) (some cs) root (some info) vm call
      = some (Except.ok (some
          (buildDefinition info.contractName call.name vm call.args))) := by
  obtain ⟨m, hm⟩ := Option.isSome_iff_exists.mp h
  simp [findAndRenameCall, hm]

/-- C3. A call whose callee name matches a function of the current
contract record resolves to an identifier qualified by the current
contract's name, with no dependence on the universe's other records:
ancestors and imports are never consulted, even when an ancestor
defines a function of the same name. -/
theorem c3_local_shadowing (fuel : Nat) (cs : List ContractInfo)
    (root info : ContractInfo) (vm : VarTypeMap) (call : Call)
    (h : (info.methodCalls.find?
        (fun m => decide (m.functionName = some call.name))).isSome = true) :
    findAndRenameCall (fuel + 1) (some cs) root (some info) vm call
      = some (Except.ok (some
          (buildDefinition info.contractName call.name vm call.args))) :=
  resolveLocal fuel cs root info vm call h

/-- Witness for C3: contract C defines `g`, its ancestor P also defines
`g`, and the call still resolves to the C-qualified identifier. -/
theorem c3_witness :
    ((⟨some "C", ["P"], [], [⟨some "g", "C:g", []⟩]⟩ : ContractInfo).methodCalls.find?
        (fun m => decide (m.functionName = some "g"))).isSome = true
    ∧ findAndRenameCall 1 (some [⟨some "P", [], [], [⟨some "g", "P:g", []⟩]⟩])
        ⟨some "C", ["P"], [], [⟨some "g", "C:g", []⟩]⟩
        (some ⟨some "C", ["P"], [], [⟨some "g", "C:g", []⟩]⟩) [] ⟨"g", some []⟩
      = some (Except.ok (some (buildDefinition (some "C") "g" [] (some [])))) :=
  ⟨rfl, c3_local_shadowing 0 [⟨some "P", [], [], [⟨some "g", "P:g", []⟩]⟩]
    ⟨some "C", ["P"], [], [⟨some "g", "C:g", []⟩]⟩
    ⟨some "C", ["P"], [], [⟨some "g", "C:g", []⟩]⟩ [] ⟨"g", some []⟩ rfl⟩

/-- C10, amended. An absent universe makes the resolver return the
unresolved marker, but an absent current contract record — as produced
when a name in `extendsContracts` or an import-derived contract name
has no `ContractRecord` in the universe — makes the resolver throw
(the `methodCalls` access on `undefined` faults) instead of returning
a value: the two absences are not handled alike. -/
theorem c10_absent_record_throws :
    (∀ (fuel : Nat) (root : ContractInfo) (info : Option ContractInfo)
        (vm : VarTypeMap) (call : Call),
      findAndRenameCall (fuel + 1) none root info vm call
        = some (Except.ok none))
    ∧ (∀ (fuel : Nat) (cs : List ContractInfo) (root : ContractInfo)
        (vm : VarTypeMap) (call : Call),
      findAndRenameCall (fuel + 1) (some cs) root none vm call
        = some (Except.error ())) :=
  ⟨fun _ _ _ _ _ => rfl, fun _ _ _ _ _ => rfl⟩

/-- Counterexample to C10 as stated: a record extending the name
"Nope", which has no record in the (empty) universe, makes the resolver
throw rather than return a value — an absent contract record is not
handled like an absent universe. -/
theorem c10_counterexample :
    findAndRenameCall 5 (some []) ⟨some "Child", ["Nope"], [], []⟩
      (some ⟨some "Child", ["Nope"], [], []⟩) [] ⟨"f", some []⟩
      = some (Except.error ()) := rfl

/-- Counterexample to C1 as stated: function `f` whose single statement
is a direct call to the distinct callee `g`, with `g` not a built-in
assertion, not ignored, not a contract name, not undefined, and the
call not referencing the function's own name — yet nothing is recorded,
because the source requires the body to have more than one statement
for any direct call to be recorded. -/
theorem c1_counterexample :
    visitFunctionBody [] []
        ⟨some "f", false, [], [], some [Expr.functionCall (Expr.identifier "g") []]⟩
      = []
    ∧ ("g" ∉ ["require", "revert", "assert"]
        ∧ "g" ∉ ([] : List String) ∧ ¬(some "g" = (none : Option String))
        ∧ ¬(some "g" = some "f")) :=
  ⟨rfl, by decide⟩

/-- Counterexample to C7 as stated: profiling the two-file closure puts
the declared struct name `MyStruct` on the ignore list, yet extraction
records a call named `MyStruct` for `M.f`, because the member-access
path (`L.MyStruct(...)` with L a known contract name) never consults
the ignore list. -/
theorem c7_counterexample :
    profileData 5 c7Fs "M.sol" [] [] [] []
      = some (Except.ok (["node_modules/L.sol"], ["MyStruct"], ["L", "M"],
          [("L", []), ("M", [])]))
    ∧ processData 5 c7Fs (some "M.sol") [] ["MyStruct"] ["L", "M"]
      = some (Except.ok
          ([⟨some "L", [], [], []⟩,
            ⟨some "M", [], ["node_modules/L.sol"],
             [⟨some "f", "M:f", [⟨"MyStruct", some []⟩]⟩]⟩],
           [some "node_modules/L.sol"]))
    ∧ "MyStruct" ∈ ["MyStruct"] :=
  ⟨rfl, rfl, by decide⟩

/-- Empty aggregation returns the accumulated result. -/
theorem visitFold_nil (recur : Option ContractInfo → JsRun (Option String))
    (found : Option String) : visitFold recur [] found = some (Except.ok found) := rfl

/-- Aggregation step for a recursive call that returned a resolved
identifier: it overwrites the accumulator. -/
theorem visitFold_cons_ok_some (recur : Option ContractInfo → JsRun (Option String))
    (t : Option ContractInfo) (ts : List (Option ContractInfo))
    (found : Option String) (s : String) (h : recur t = some (Except.ok (some s))) :
    visitFold recur (t :: ts) found = visitFold recur ts (some s) := by
  have hstep : visitFold recur (t :: ts) found
      = match recur t with
        | none => none
        | some (Except.error e) => some (Except.error e)
        | some (Except.ok r2) =>
          visitFold recur ts (match r2 with | some s2 => some s2 | none => found) := rfl
  rw [hstep, h]

/-- Aggregation step for a recursive call that returned undefined: the
accumulator is kept. -/
theorem visitFold_cons_ok_none (recur : Option ContractInfo → JsRun (Option String))
    (t : Option ContractInfo) (ts : List (Option ContractInfo))
    (found : Option String) (h : recur t = some (Except.ok none)) :
    visitFold recur (t :: ts) found = visitFold recur ts found := by
  have hstep : visitFold recur (t :: ts) found
      = match recur t with
        | none => none
        | some (Except.error e) => some (Except.error e)
        | some (Except.ok r2) =>
          visitFold recur ts (match r2 with | some s2 => some s2 | none => found) := rfl
  rw [hstep, h]

/-- Aggregation step for a diverging recursive call. -/
theorem visitFold_cons_none (recur : Option ContractInfo → JsRun (Option String))
    (t : Option ContractInfo) (ts : List (Option ContractInfo))
    (found : Option String) (h : recur t = none) :
    visitFold recur (t :: ts) found = none := by
  simp [visitFold, h]

/-- Aggregation step for a throwing recursive call. -/
theorem visitFold_cons_error (recur : Option ContractInfo → JsRun (Option String))
    (t : Option ContractInfo) (ts : List (Option ContractInfo))
    (found : Option String) (h : recur t = some (Except.error ())) :
    visitFold recur (t :: ts) found = some (Except.error ()) := by
  simp [visitFold, h]

/-- Resolver step when the local search fails: ancestors are aggregated
first, and only an undefined aggregate falls through to the
non-ancestor imports. -/
theorem resolveNonLocal (fuel : Nat) (cs : List ContractInfo)
    (root info : ContractInfo) (vm : VarTypeMap) (call : Call)
    (hlocal : info.methodCalls.find?
        (fun m => decide (m.functionName = some call.name)) = none) :
    findAndRenameCall (fuel + 1) (some cs) root (some info) vm call
      = match visitFold (fun t => findAndRenameCall fuel (some cs) root t vm call)
          (info.extendsContracts.map
            (fun e => cs.find? (fun c => decide (c.contractName = some e)))) none with
        | none => none
        | some (Except.error e) => some (Except.error e)
        | some (Except.ok (some s)) => some (Except.ok (some s))
        | some (Except.ok none) =>
          visitFold (fun t => findAndRenameCall fuel (some cs) root t vm call)
            ((info.importList.filter
                (fun imp => !jsIncludes info.extendsContracts (pathParseName imp))).map
              (fun imp => cs.find?
                (fun c => decide (c.contractName = some (pathParseName imp))))) none := by
  simp only [findAndRenameCall, hlocal]

/-- C2. When a contract's record extends `[A, B]` in that order, its
own record does not define the callee, and both ancestor records do,
the resolver returns the identifier qualified by B's contract name: the
last non-unresolved ancestor result in declaration order wins. -/
theorem c2_last_ancestor_wins (fuel : Nat) (cs : List ContractInfo)
    (root child recA recB : ContractInfo) (vm : VarTypeMap) (call : Call)
    (nA nB : String)
    (hext : child.extendsContracts = [nA, nB])
    (hlocal : child.methodCalls.find?
        (fun m => decide (m.functionName = some call.name)) = none)
    (hA : cs.find? (fun c => decide (c.contractName = some nA)) = some recA)
    (hB : cs.find? (fun c => decide (c.contractName = some nB)) = some recB)
    (hfA : (recA.methodCalls.find?
        (fun m => decide (m.functionName = some call.name))).isSome = true)
    (hfB : (recB.methodCalls.find?
        (fun m => decide (m.functionName = some call.name))).isSome = true) :
    findAndRenameCall (fuel + 2) (some cs) root (some child) vm call
      = some (Except.ok (some
          (buildDefinition recB.contractName call.name vm call.args))) := by
  have hA1 := resolveLocal fuel cs root recA vm call hfA
  have hB1 := resolveLocal fuel cs root recB vm call hfB
  have step := resolveNonLocal (fuel + 1) cs root child vm call hlocal
  rw [hext] at step
  simp only [List.map_cons, List.map_nil, hA, hB] at step
  rw [step, visitFold_cons_ok_some _ _ _ _ _ hA1, visitFold_cons_ok_some _ _ _ _ _ hB1,
    visitFold_nil]

/-- Witness for C2: Child extends A then B, both defining `f`; the call
resolves to the B-qualified identifier. -/
theorem c2_witness :
    ((⟨some "Child", ["A", "B"], [], []⟩ : ContractInfo).extendsContracts = ["A", "B"])
    ∧ findAndRenameCall 2
        (some [⟨some "A", [], [], [⟨some "f", "A:f", []⟩]⟩,
               ⟨some "B", [], [], [⟨some "f", "B:f", []⟩]⟩])
        ⟨some "Child", ["A", "B"], [], []⟩
        (some ⟨some "Child", ["A", "B"], [], []⟩) [] ⟨"f", some []⟩
      = some (Except.ok (some (buildDefinition (some "B") "f" [] (some [])))) :=
  ⟨rfl,
    c2_last_ancestor_wins 0
      [⟨some "A", [], [], [⟨some "f", "A:f", []⟩]⟩,
       ⟨some "B", [], [], [⟨some "f", "B:f", []⟩]⟩]
      ⟨some "Child", ["A", "B"], [], []⟩ ⟨some "Child", ["A", "B"], [], []⟩
      ⟨some "A", [], [], [⟨some "f", "A:f", []⟩]⟩
      ⟨some "B", [], [], [⟨some "f", "B:f", []⟩]⟩ [] ⟨"f", some []⟩ "A" "B"
      rfl rfl rfl rfl rfl rfl⟩

/-- Counterexample to C5 as stated: on the cyclic universe where A and
B extend each other and neither defines `f`, the resolver exhausts
every recursion depth — the JS original recurses forever instead of
terminating with the unresolved marker. -/
theorem c5_counterexample : c5CycleDiverges := by
  have key : ∀ fuel : Nat,
      findAndRenameCall fuel (some c5Universe) c5A (some c5A) [] ⟨"f", some []⟩ = none
      ∧ findAndRenameCall fuel (some c5Universe) c5A (some c5B) [] ⟨"f", some []⟩
        = none := by
    intro fuel
    induction fuel with
    | zero => exact ⟨rfl, rfl⟩
    | succ n ih =>
      have hTA : c5A.extendsContracts.map
          (fun e => c5Universe.find? (fun c => decide (c.contractName = some e)))
          = [some c5B] := rfl
      have hTB : c5B.extendsContracts.map
          (fun e => c5Universe.find? (fun c => decide (c.contractName = some e)))
          = [some c5A] := rfl
      constructor
      · have step := resolveNonLocal n c5Universe c5A c5A [] ⟨"f", some []⟩ rfl
        rw [hTA] at step
        rw [step, visitFold_cons_none _ _ _ _ ih.2]
      · have step := resolveNonLocal n c5Universe c5A c5B [] ⟨"f", some []⟩ rfl
        rw [hTB] at step
        rw [step, visitFold_cons_none _ _ _ _ ih.1]
  exact fun fuel => (key fuel).1

/-- Counterexample to C4 as stated: extracting the cyclic two-file
universe terminates but returns the entry file's record twice — three
records, two of them for contract A — because the entry file itself is
never placed in the visited set. -/
theorem c4_counterexample :
    processData 10 c4Fs (some "d/A.sol") [] [] []
      = some (Except.ok
          ([⟨some "A", [], ["d/B.sol"], []⟩,
            ⟨some "B", [], ["d/A.sol"], []⟩,
            ⟨some "A", [], ["d/B.sol"], []⟩],
           [some "d/B.sol", some "d/A.sol"]))
    ∧ (([⟨some "A", [], ["d/B.sol"], []⟩,
         ⟨some "B", [], ["d/A.sol"], []⟩,
         ⟨some "A", [], ["d/B.sol"], []⟩] : List ContractInfo).map
          (fun r => r.contractName)).count (some "A") = 2 :=
  ⟨rfl, by decide⟩

/-- Counterexample to C9 as stated: profiling a file that defines
contract A owning variable `x` and contract B owning variable `y`
stores both variables under the key "B" (the last contract name) and
stores nothing under "A" — `x` is not recorded under its enclosing
contract. -/
theorem c9_counterexample :
    profileData 5 c9Fs "m.sol" [] [] [] []
      = some (Except.ok ([], [], ["A", "B"],
          [("B", [("x", ⟨"x", ⟨some "uint256", none⟩⟩),
                  ("y", ⟨"y", ⟨some "address", none⟩⟩)])]))
    ∧ mapGet [("B", [("x", (⟨"x", ⟨some "uint256", none⟩⟩ : VarDecl)),
                     ("y", ⟨"y", ⟨some "address", none⟩⟩)])] "A"
      = (none : Option (List (String × VarDecl))) :=
  ⟨rfl, rfl⟩

/-- Segment contribution of each argument kind, appended at the end of
the identifier under construction. -/
theorem buildDefinition_append_member (cn : Option String) (n : String)
    (vm : VarTypeMap) (args : List Expr) (obj : Expr) (m : String) :
    buildDefinition cn n vm (some (args ++ [Expr.memberAccess obj m]))
      = buildDefinition cn n vm (some args)
        ++ (if m = "sender" then ":address"
            else if m = "value" then ":uint256" else "") := by
  by_cases hm1 : m = "sender"
  · simp [buildDefinition, List.foldl_append, hm1]
  · by_cases hm2 : m = "value"
    · simp [buildDefinition, List.foldl_append, hm1, hm2]
    · simp [buildDefinition, List.foldl_append, hm1, hm2, String.append_empty]

/-- C6. For a call the resolver resolves locally, a trailing
MemberAccess argument named `sender` contributes the final segment
`address`, one named `value` contributes `uint256`, and any other
member name contributes no segment; in particular
`x.transfer(msg.value)` resolves to an identifier ending in `uint256`. -/
theorem c6_member_arg_segments (fuel : Nat) (cs : List ContractInfo)
    (root info : ContractInfo) (vm : VarTypeMap) (n : String)
    (args : List Expr) (obj : Expr) (m : String)
    (h : (info.methodCalls.find?
        (fun mr => decide (mr.functionName = some n))).isSome = true) :
    findAndRenameCall (fuel + 1) (some cs) root (some info) vm
        ⟨n, some (args ++ [Expr.memberAccess obj m])⟩
      = some (Except.ok (some (buildDefinition info.contractName n vm (some args)
          ++ (if m = "sender" then ":address"
              else if m = "value" then ":uint256" else "")))) := by
  rw [resolveLocal fuel cs root info vm ⟨n, some (args ++ [Expr.memberAccess obj m])⟩ h,
    buildDefinition_append_member]

/-- Witness for C6: `transfer(msg.value)` resolves with final segment
`uint256`. -/
theorem c6_witness :
    ((⟨some "T", [], [], [⟨some "transfer", "T:transfer", []⟩]⟩ : ContractInfo).methodCalls.find?
        (fun mr => decide (mr.functionName = some "transfer"))).isSome = true
    ∧ findAndRenameCall 1 (some [])
        ⟨some "T", [], [], [⟨some "transfer", "T:transfer", []⟩]⟩
        (some ⟨some "T", [], [], [⟨some "transfer", "T:transfer", []⟩]⟩) []
        ⟨"transfer", some ([] ++ [Expr.memberAccess (Expr.identifier "msg") "value"])⟩
      = some (Except.ok (some (buildDefinition (some "T") "transfer" [] (some [])
          ++ (if "value" = "sender" then ":address"
              else if "value" = "value" then ":uint256" else "")))) :=
  ⟨rfl,
    c6_member_arg_segments 0 []
      ⟨some "T", [], [], [⟨some "transfer", "T:transfer", []⟩]⟩
      ⟨some "T", [], [], [⟨some "transfer", "T:transfer", []⟩]⟩ [] "transfer" []
      (Expr.identifier "msg") "value" rfl⟩

/-- Identifier arguments fire neither visitor handler. -/
theorem visitList_ident_args (cl il : List String) (fname : Option String)
    (cnt : Nat) (l : List String) :
    visitExprList (parserFunctionVisitor cl il fname cnt) (l.map Expr.identifier)
      = [] := by
  induction l with
  | nil => rfl
  | cons a t ih =>
    simp only [List.map_cons, visitExprList, visitExpr, ih]
    rfl

/-- Action of the visitor at one direct-call statement with identifier
callee and identifier arguments. -/
theorem visitExpr_call_stmt (cl il : List String) (fname : Option String)
    (cnt : Nat) (p : String × List String) :
    visitExpr (parserFunctionVisitor cl il fname cnt) (mkCallStmt p)
      = if fcNameDiffers fname (some p.1) && decide (1 < cnt)
            && isCountableStatement (some p.1) cl il then
          [⟨p.1, some (p.2.map Expr.identifier)⟩]
        else [] := by
  show parserFunctionVisitor cl il fname cnt
        (Expr.functionCall (Expr.identifier p.1) (p.2.map Expr.identifier))
      ++ visitExpr (parserFunctionVisitor cl il fname cnt) (Expr.identifier p.1)
      ++ visitExprList (parserFunctionVisitor cl il fname cnt)
          (p.2.map Expr.identifier)
      = _
  rw [visitList_ident_args]
  show parserFunctionVisitor cl il fname cnt
        (Expr.functionCall (Expr.identifier p.1) (p.2.map Expr.identifier))
      ++ [] ++ [] = _
  rw [List.append_nil, List.append_nil]
  simp only [parserFunctionVisitor, Expr.exprName]

/-- Characterization of the body sub-visit on a body made of
direct-call statements: calls recorded are exactly those passing the
name-difference, statement-count and countable-statement checks, in
order. -/
theorem visitList_call_stmts (cl il : List String) (fname : Option String)
    (cnt : Nat) (pairs : List (String × List String)) :
    visitExprList (parserFunctionVisitor cl il fname cnt) (pairs.map mkCallStmt)
      = (pairs.filter (fun p => fcNameDiffers fname (some p.1)
            && decide (1 < cnt)
            && isCountableStatement (some p.1) cl il)).map
          (fun p => ⟨p.1, some (p.2.map Expr.identifier)⟩) := by
  induction pairs with
  | nil => rfl
  | cons a t ih =>
    show visitExpr (parserFunctionVisitor cl il fname cnt) (mkCallStmt a)
        ++ visitExprList (parserFunctionVisitor cl il fname cnt) (t.map mkCallStmt)
        = _
    rw [visitExpr_call_stmt, ih]
    by_cases ha : (fcNameDiffers fname (some a.1) && decide (1 < cnt)
        && isCountableStatement (some a.1) cl il) = true
    · simp [List.filter_cons, ha]
    · simp [List.filter_cons, Bool.eq_false_iff.mpr ha, ha]

/-- Characterization of the body sub-visit on a body made of
direct-call statements: calls recorded are exactly those passing the
name-difference, statement-count and countable-statement checks, in
order. -/
theorem visitBody_call_stmts (cl il : List String) (fname : Option String)
    (pairs : List (String × List String)) :
    visitFunctionBody cl il (mkCallFDef fname pairs)
      = (pairs.filter (fun p => fcNameDiffers fname (some p.1)
            && decide (1 < pairs.length)
            && isCountableStatement (some p.1) cl il)).map
          (fun p => ⟨p.1, some (p.2.map Expr.identifier)⟩) := by
  show visitExprList
      (parserFunctionVisitor cl il fname (pairs.map mkCallStmt).length)
      (pairs.map mkCallStmt) = _
  rw [List.length_map, visitList_call_stmts]

/-- Recording condition of the direct-call handler, rephrased: the
callee differs from the function's own name, the body has more than one
statement, and the callee is neither a built-in assertion nor ignored
nor a contract name. -/
theorem recordCondition_iff (cl il : List String) (fname : Option String)
    (cnt : Nat) (x : String) :
    (fcNameDiffers fname (some x) && decide (1 < cnt)
        && isCountableStatement (some x) cl il)
      = (decide (fname ≠ some x) && decide (1 < cnt)
          && decide (x ∉ ["require", "revert", "assert"])
          && decide (x ∉ il) && decide (x ∉ cl)) := by
  rw [Bool.eq_iff_iff]
  simp only [Bool.and_eq_true, decide_eq_true_eq]
  have h1 : fcNameDiffers fname (some x) = true ↔ fname ≠ some x := by
    cases fname with
    | none => simp [fcNameDiffers]
    | some a => simp [fcNameDiffers]
  have h2 : isCountableStatement (some x) cl il = true
      ↔ (x ∉ ["require", "revert", "assert"] ∧ x ∉ il ∧ x ∉ cl) := by
    simp only [isCountableStatement, jsIncludesOpt, isKeywordFunction,
      jsIncludes_eq_mem, Bool.and_eq_true, Bool.not_eq_eq_eq_not, Bool.not_true,
      decide_eq_false_iff_not, List.mem_cons, List.not_mem_nil, or_false]
    constructor
    · rintro ⟨⟨⟨hk, hi⟩, hc⟩, -⟩
      refine ⟨?_, hi, hc⟩
      intro hmem
      rcases hmem with h | h | h <;> simp [h] at hk
    · rintro ⟨hk, hi, hc⟩
      refine ⟨⟨⟨?_, hi⟩, hc⟩, by simp⟩
      by_cases e1 : x = "require"
      · exact absurd (by simp [e1]) hk
      · by_cases e2 : x = "revert"
        · exact absurd (by simp [e2]) hk
        · by_cases e3 : x = "assert"
          · exact absurd (by simp [e3]) hk
          · simp [e1, e2, e3]
  rw [h1, h2]
  tauto

/-- C1, amended. For a function body consisting of direct-call
statements, a call is recorded exactly when the callee name differs
from the function's own name AND the body has more than one statement
AND the callee is not a built-in assertion, not ignored and not a
contract name. In particular — contrary to the claim — a call to a
different function from a one-statement body is NOT recorded (the
statement-count conjunct fails), and a self-call from a multi-statement
body is NOT recorded either (the name-difference conjunct fails). -/
theorem c1_direct_call_recording (cl il : List String) (fname : Option String)
    (pairs : List (String × List String)) :
    visitFunctionBody cl il (mkCallFDef fname pairs)
      = (pairs.filter (fun p => decide (fname ≠ some p.1)
            && decide (1 < pairs.length)
            && decide (p.1 ∉ ["require", "revert", "assert"])
            && decide (p.1 ∉ il) && decide (p.1 ∉ cl))).map
          (fun p => ⟨p.1, some (p.2.map Expr.identifier)⟩) := by
  rw [visitBody_call_stmts]
  congr 1
  apply List.filter_congr
  intro p _
  exact recordCondition_iff cl il fname pairs.length p.1

/-- C7, amended. A call recorded through the direct-call path never
carries a name from the ignore list: over bodies of direct-call
statements, every recorded call's name avoids the ignore set. The
member-access path, by contrast, never consults the ignore list and can
record an ignored struct or event name (see the counterexample). -/
theorem c7_ignored_names_never_direct (cl il : List String)
    (fname : Option String) (pairs : List (String × List String)) (c : Call)
    (hc : c ∈ visitFunctionBody cl il (mkCallFDef fname pairs)) :
    c.name ∉ il := by
  rw [visitBody_call_stmts] at hc
  obtain ⟨p, hp, hpc⟩ := List.mem_map.mp hc
  have hcond := List.of_mem_filter hp
  simp only [Bool.and_eq_true] at hcond
  have hnotil : jsIncludesOpt il (some p.1) = false := by
    have := hcond.2
    simp only [isCountableStatement, Bool.and_eq_true, Bool.not_eq_eq_eq_not,
      Bool.not_true] at this
    exact this.1.1.2
  rw [jsIncludesOpt, jsIncludes_eq_mem, decide_eq_false_iff_not] at hnotil
  have hname : c.name = p.1 := by rw [← hpc]
  rw [hname]
  exact hnotil

/-- Witness for C7, amended: from a two-statement body calling `g` and
`h` with `x` on the ignore list, the recorded call `g` is not an
ignored name. -/
theorem c7_witness :
    (⟨"g", some []⟩ : Call) ∈ visitFunctionBody [] ["x"]
        (mkCallFDef (some "f") [("g", []), ("h", [])])
    ∧ (⟨"g", some []⟩ : Call).name ∉ ["x"] :=
  have hmem : (⟨"g", some []⟩ : Call) ∈ visitFunctionBody [] ["x"]
      (mkCallFDef (some "f") [("g", []), ("h", [])]) := by
    rw [show visitFunctionBody [] ["x"]
        (mkCallFDef (some "f") [("g", []), ("h", [])])
        = [⟨"g", some []⟩, ⟨"h", some []⟩] from rfl]
    exact List.mem_cons_self _ _
  ⟨hmem, c7_ignored_names_never_direct [] ["x"] (some "f")
    [("g", []), ("h", [])] ⟨"g", some []⟩ hmem⟩

/-- Local search fails on every record of a universe that defines no
function with the callee's name. -/
theorem noFunctionNamed_find (cs : List ContractInfo) (n : String)
    (info : ContractInfo) (h : noFunctionNamed cs n = true) (hmem : info ∈ cs) :
    info.methodCalls.find? (fun m => decide (m.functionName = some n)) = none := by
  rw [noFunctionNamed, List.all_eq_true] at h
  have h2 := h info hmem
  rwa [Option.isNone_iff_eq_none] at h2

/-- An ancestor reference under a decreasing rank certificate finds a
member record of smaller rank. -/
theorem refsDecrease_anc (cs : List ContractInfo) (rk : Option String → Nat)
    (c : ContractInfo) (e : String) (h : refsDecrease cs rk = true)
    (hc : c ∈ cs) (he : e ∈ c.extendsContracts) :
    ∃ t, cs.find? (fun d => decide (d.contractName = some e)) = some t
      ∧ rk t.contractName < rk c.contractName ∧ t ∈ cs := by
  rw [refsDecrease, List.all_eq_true] at h
  have h2 := h c hc
  rw [Bool.and_eq_true] at h2
  have h3 := (List.all_eq_true.mp h2.1) e he
  cases hfind : cs.find? (fun d => decide (d.contractName = some e)) with
  | none => rw [hfind] at h3; exact absurd h3 (by simp)
  | some t =>
    rw [hfind] at h3
    simp only [decide_eq_true_eq] at h3
    exact ⟨t, rfl, h3, List.mem_of_find?_eq_some hfind⟩

/-- A followed import reference under a decreasing rank certificate
finds a member record of smaller rank. -/
theorem refsDecrease_imp (cs : List ContractInfo) (rk : Option String → Nat)
    (c : ContractInfo) (imp : String) (h : refsDecrease cs rk = true)
    (hc : c ∈ cs) (himp : imp ∈ c.importList)
    (hnot : jsIncludes c.extendsContracts (pathParseName imp) = false) :
    ∃ t, cs.find?
        (fun d => decide (d.contractName = some (pathParseName imp))) = some t
      ∧ rk t.contractName < rk c.contractName ∧ t ∈ cs := by
  rw [refsDecrease, List.all_eq_true] at h
  have h2 := h c hc
  rw [Bool.and_eq_true] at h2
  have hmemf : imp ∈ c.importList.filter
      (fun imp2 => !jsIncludes c.extendsContracts (pathParseName imp2)) :=
    List.mem_filter.mpr ⟨himp, by rw [hnot]; rfl⟩
  have h3 := (List.all_eq_true.mp h2.2) imp hmemf
  cases hfind : cs.find?
      (fun d => decide (d.contractName = some (pathParseName imp))) with
  | none => rw [hfind] at h3; exact absurd h3 (by simp)
  | some t =>
    rw [hfind] at h3
    simp only [decide_eq_true_eq] at h3
    exact ⟨t, rfl, h3, List.mem_of_find?_eq_some hfind⟩

/-- Aggregation over recursive calls that all return undefined keeps
the accumulated result. -/
theorem visitFold_all_none (recur : Option ContractInfo → JsRun (Option String))
    (ts : List (Option ContractInfo)) (found : Option String)
    (h : ∀ t ∈ ts, recur t = some (Except.ok none)) :
    visitFold recur ts found = some (Except.ok found) := by
  induction ts with
  | nil => rfl
  | cons a t ih =>
    rw [visitFold_cons_ok_none _ _ _ _ (h a (List.mem_cons_self a t))]
    exact ih (fun x hx => h x (List.mem_cons_of_mem a hx))

/-- Rank-based termination of the resolver: on a universe where no
record defines the callee, every reference finds a record, and
references strictly decrease a rank, the resolver returns undefined
once the fuel exceeds the current record's rank. -/
theorem resolver_rank_unresolved (cs : List ContractInfo)
    (rk : Option String → Nat) (root : ContractInfo) (vm : VarTypeMap)
    (call : Call) (fuel : Nat)
    (hnone : noFunctionNamed cs call.name = true)
    (hdec : refsDecrease cs rk = true) :
    ∀ info : ContractInfo, info ∈ cs → rk info.contractName < fuel →
      findAndRenameCall fuel (some cs) root (some info) vm call
        = some (Except.ok none) := by
  induction fuel with
  | zero => exact fun info _ hlt => absurd hlt (Nat.not_lt_zero _)
  | succ n ih =>
    intro info hmem hlt
    have hlocal := noFunctionNamed_find cs call.name info hnone hmem
    rw [resolveNonLocal n cs root info vm call hlocal]
    have hanc : visitFold (fun t => findAndRenameCall n (some cs) root t vm call)
        (info.extendsContracts.map
          (fun e => cs.find? (fun c => decide (c.contractName = some e)))) none
        = some (Except.ok none) := by
      apply visitFold_all_none
      intro t ht
      obtain ⟨e, he, hte⟩ := List.mem_map.mp ht
      obtain ⟨tc, hfind, hrk, htc⟩ := refsDecrease_anc cs rk info e hdec hmem he
      show findAndRenameCall n (some cs) root t vm call = some (Except.ok none)
      rw [← hte, hfind]
      exact ih tc htc (Nat.lt_of_lt_of_le hrk (Nat.lt_succ_iff.mp hlt))
    rw [hanc]
    have himps : visitFold (fun t => findAndRenameCall n (some cs) root t vm call)
        ((info.importList.filter
            (fun imp => !jsIncludes info.extendsContracts (pathParseName imp))).map
          (fun imp => cs.find?
            (fun c => decide (c.contractName = some (pathParseName imp))))) none
        = some (Except.ok none) := by
      apply visitFold_all_none
      intro t ht
      obtain ⟨imp, himp, hti⟩ := List.mem_map.mp ht
      have himpf := List.mem_filter.mp himp
      have hnotinc : jsIncludes info.extendsContracts (pathParseName imp) = false := by
        have := himpf.2
        rwa [Bool.not_eq_eq_eq_not, Bool.not_true] at this
      obtain ⟨tc, hfind, hrk, htc⟩ :=
        refsDecrease_imp cs rk info imp hdec hmem himpf.1 hnotinc
      show findAndRenameCall n (some cs) root t vm call = some (Except.ok none)
      rw [← hti, hfind]
      exact ih tc htc (Nat.lt_of_lt_of_le hrk (Nat.lt_succ_iff.mp hlt))
    exact himps

/-- C5, amended. The resolver terminates and returns the unresolved
marker when no record of the universe defines the callee's name,
provided the ancestor/followed-import reference graph is acyclic (a
rank certificate exists) and every followed reference has a record —
on a cyclic universe the original recurses forever (see the
counterexample), and a missing record makes it throw. -/
theorem c5_unresolved_terminates (cs : List ContractInfo)
    (rk : Option String → Nat) (root info : ContractInfo) (vm : VarTypeMap)
    (call : Call) (fuel : Nat)
    (hnone : noFunctionNamed cs call.name = true)
    (hdec : refsDecrease cs rk = true)
    (hmem : info ∈ cs)
    (hfuel : rk info.contractName < fuel) :
    findAndRenameCall fuel (some cs) root (some info) vm call
      = some (Except.ok none) :=
  resolver_rank_unresolved cs rk root vm call fuel hnone hdec info hmem hfuel

/-- Witness for C5, amended: a one-record universe defining no `f`
resolves `f` to undefined at fuel 1. -/
theorem c5_witness :
    noFunctionNamed [⟨some "D", [], [], []⟩] "f" = true
    ∧ refsDecrease [⟨some "D", [], [], []⟩] (fun _ => 0) = true
    ∧ (⟨some "D", [], [], []⟩ : ContractInfo) ∈ [(⟨some "D", [], [], []⟩ : ContractInfo)]
    ∧ (fun _ => 0 : Option String → Nat) (some "D") < 1
    ∧ findAndRenameCall 1 (some [⟨some "D", [], [], []⟩]) ⟨some "D", [], [], []⟩
        (some ⟨some "D", [], [], []⟩) [] ⟨"f", some []⟩
      = some (Except.ok none) :=
  ⟨rfl, rfl, List.mem_singleton.mpr rfl, Nat.zero_lt_one,
    c5_unresolved_terminates [⟨some "D", [], [], []⟩] (fun _ => 0)
      ⟨some "D", [], [], []⟩ ⟨some "D", [], [], []⟩ [] ⟨"f", some []⟩ 1
      rfl rfl (List.mem_singleton.mpr rfl) Nat.zero_lt_one⟩

/-- Appending one segment to a segment chain. -/
theorem segmentsStr_append (ts : List String) (x : String) :
    segmentsStr (ts ++ [x]) = segmentsStr ts ++ (":" ++ x) := by
  induction ts with
  | nil =>
    show ":" ++ x ++ segmentsStr [] = "" ++ (":" ++ x)
    rw [show segmentsStr [] = "" from rfl, String.append_empty, String.empty_append]
  | cons t ts ih =>
    show ":" ++ t ++ segmentsStr (ts ++ [x]) = ":" ++ t ++ segmentsStr ts ++ (":" ++ x)
    rw [ih]
    simp [String.append_assoc]

/-- The form predicate survives appending one colon-prefixed segment. -/
theorem isResolvedForm_append_seg {acc : String} (x : String)
    (h : isResolvedForm acc) : isResolvedForm (acc ++ ":" ++ x) := by
  obtain ⟨c, f, ts, rfl⟩ := h
  exact ⟨c, f, ts ++ [x], by
    rw [segmentsStr_append, ← String.append_assoc, ← String.append_assoc]⟩

/-- Every identifier the local search builds has the resolved form. -/
theorem buildDefinition_form (cn : Option String) (n : String)
    (vm : VarTypeMap) (args : Option (List Expr)) :
    isResolvedForm (buildDefinition cn n vm args) := by
  have hbase : isResolvedForm (jsUndef cn ++ ":" ++ n) :=
    ⟨jsUndef cn, n, [], by rw [show segmentsStr [] = "" from rfl, String.append_empty]⟩
  cases args with
  | none => exact hbase
  | some l =>
    show isResolvedForm (l.foldl _ (jsUndef cn ++ ":" ++ n))
    generalize jsUndef cn ++ ":" ++ n = acc at hbase ⊢
    induction l generalizing acc with
    | nil => exact hbase
    | cons p l ih =>
      cases p with
      | identifier x =>
        exact ih _ (isResolvedForm_append_seg _ hbase)
      | memberAccess o m =>
        show isResolvedForm (l.foldl _
          (if m = "sender" then acc ++ ":address"
           else if m = "value" then acc ++ ":uint256" else acc))
        by_cases hm1 : m = "sender"
        · rw [if_pos hm1]
          exact ih _ (by
            rw [show (":address" : String) = ":" ++ "address" from rfl,
              ← String.append_assoc]
            exact isResolvedForm_append_seg _ hbase)
        · rw [if_neg hm1]
          by_cases hm2 : m = "value"
          · rw [if_pos hm2]
            exact ih _ (by
              rw [show (":uint256" : String) = ":" ++ "uint256" from rfl,
                ← String.append_assoc]
              exact isResolvedForm_append_seg _ hbase)
          · rw [if_neg hm2]
            exact ih _ hbase
      | indexAccess a b => exact ih _ hbase
      | functionCall c2 as => exact ih _ hbase
      | other => exact ih _ hbase

/-- Origin of a resolved aggregate: it is the accumulator or the result
of one of the recursive calls. -/
theorem visitFold_ok_some_origin
    (recur : Option ContractInfo → JsRun (Option String))
    (ts : List (Option ContractInfo)) (found : Option String) (s : String)
    (h : visitFold recur ts found = some (Except.ok (some s))) :
    found = some s ∨ ∃ t ∈ ts, recur t = some (Except.ok (some s)) := by
  induction ts generalizing found with
  | nil =>
    left
    rw [visitFold_nil] at h
    exact Except.ok.inj (Option.some.inj h)
  | cons a t ih =>
    cases hra : recur a with
    | none => rw [visitFold_cons_none _ _ _ _ hra] at h; cases h
    | some e =>
      cases e with
      | error e =>
        cases e
        rw [visitFold_cons_error _ _ _ _ hra] at h
        exact Except.noConfusion (Option.some.inj h)
      | ok r =>
        cases r with
        | some s2 =>
          rw [visitFold_cons_ok_some _ _ _ _ _ hra] at h
          rcases ih _ h with h1 | ⟨t2, ht2, h2⟩
          · right
            exact ⟨a, List.mem_cons_self a t, by rw [hra, Option.some.inj h1]⟩
          · exact Or.inr ⟨t2, List.mem_cons_of_mem a ht2, h2⟩
        | none =>
          rw [visitFold_cons_ok_none _ _ _ _ hra] at h
          rcases ih _ h with h1 | ⟨t2, ht2, h2⟩
          · exact Or.inl h1
          · exact Or.inr ⟨t2, List.mem_cons_of_mem a ht2, h2⟩

/-- Every string the resolver ever returns has the resolved form. -/
theorem findAndRenameCall_form : ∀ (fuel : Nat)
    (contracts : Option (List ContractInfo)) (root : ContractInfo)
    (info : Option ContractInfo) (vm : VarTypeMap) (call : Call) (s : String),
    findAndRenameCall fuel contracts root info vm call
      = some (Except.ok (some s)) → isResolvedForm s := by
  intro fuel
  induction fuel with
  | zero => intro _ _ _ _ _ _ h; cases h
  | succ n ih =>
    intro contracts root info vm call s h
    cases contracts with
    | none =>
      exact Option.noConfusion (Except.ok.inj (Option.some.inj h))
    | some cs =>
      cases info with
      | none =>
        exact Except.noConfusion (Option.some.inj h)
      | some i =>
        cases hfind : i.methodCalls.find?
            (fun m => decide (m.functionName = some call.name)) with
        | some m =>
          rw [resolveLocal n cs root i vm call (by rw [hfind]; rfl)] at h
          rw [← Option.some.inj (Except.ok.inj (Option.some.inj h))]
          exact buildDefinition_form _ _ _ _
        | none =>
          rw [resolveNonLocal n cs root i vm call hfind] at h
          cases hv : visitFold
              (fun t => findAndRenameCall n (some cs) root t vm call)
              (i.extendsContracts.map
                (fun e => cs.find? (fun c => decide (c.contractName = some e))))
              none with
          | none => rw [hv] at h; cases h
          | some e =>
            cases e with
            | error e =>
              cases e
              rw [hv] at h
              exact Except.noConfusion (Option.some.inj h)
            | ok r =>
              cases r with
              | some s2 =>
                rw [hv] at h
                rcases visitFold_ok_some_origin _ _ _ _ hv with h1 | ⟨t, _, h2⟩
                · cases h1
                · rw [← Option.some.inj (Except.ok.inj (Option.some.inj h))]
                  exact ih (some cs) root t vm call s2 h2
              | none =>
                rw [hv] at h
                rcases visitFold_ok_some_origin _ _ _ _ h with h1 | ⟨t, _, h2⟩
                · cases h1
                · exact ih (some cs) root t vm call s h2

/-- Inversion of a successful elementwise transformation: every element
of the output comes from an element of the input. -/
theorem jsMapThrow_ok_mem {α β : Type} {f : α → JsRun β} {l : List α}
    {bs : List β} (h : jsMapThrow f l = some (Except.ok bs)) {b : β}
    (hb : b ∈ bs) : ∃ a ∈ l, f a = some (Except.ok b) := by
  induction l generalizing bs with
  | nil =>
    have hnil : ([] : List β) = bs := by
      have h2 : (some (Except.ok []) : JsRun (List β)) = some (Except.ok bs) := h
      exact Except.ok.inj (Option.some.inj h2)
    rw [← hnil] at hb
    cases hb
  | cons a as ih =>
    obtain ⟨b0, hfa, h2⟩ := jsBind_eq_ok h
    obtain ⟨bs0, hmap, h3⟩ := jsBind_eq_ok h2
    have hcons : b0 :: bs0 = bs := Except.ok.inj (Option.some.inj h3)
    rw [← hcons] at hb
    cases hb with
    | head => exact ⟨a, List.mem_cons_self a as, hfa⟩
    | tail _ hb2 =>
      obtain ⟨a2, ha2, hfa2⟩ := ih hmap hb2
      exact ⟨a2, List.mem_cons_of_mem a ha2, hfa2⟩

/-- C8. After linking completes, every call reference of every linked
universe carries either the unresolved marker (undefined) or a string
of the form `Contract:Function[:Type]*` in its rewritten `name` field —
the field is always assigned. -/
theorem c8_resolved_form (fuel : Nat) (entries : List ContractsEntry)
    (vm : VarTypeMap) (out : List REntry)
    (h : renameToSymLinks fuel entries vm = some (Except.ok out)) :
    ∀ e ∈ out, ∀ ci ∈ e.contract, ∀ mr ∈ ci.methodCalls, ∀ c ∈ mr.callMethods,
      c.name = none ∨ ∃ s, c.name = some s ∧ isResolvedForm s := by
  intro e he ci hci mr hmr c hc
  obtain ⟨entry, hentry, hE⟩ := jsMapThrow_ok_mem h he
  obtain ⟨cs2, hcs2, hE2⟩ := jsBind_eq_ok hE
  have he2 : (⟨entry.file, cs2⟩ : REntry) = e := Except.ok.inj (Option.some.inj hE2)
  rw [← he2] at hci
  obtain ⟨ci0, hci0, hC⟩ := jsMapThrow_ok_mem hcs2 hci
  obtain ⟨ms2, hms2, hC2⟩ := jsBind_eq_ok hC
  have hc2 : (⟨ci0.contractName, ci0.extendsContracts, ci0.importList, ms2⟩ :
      RContractInfo) = ci := Except.ok.inj (Option.some.inj hC2)
  rw [← hc2] at hmr
  obtain ⟨mr0, hmr0, hM⟩ := jsMapThrow_ok_mem hms2 hmr
  obtain ⟨calls2, hcalls2, hM2⟩ := jsBind_eq_ok hM
  have hm2 : (⟨mr0.functionName, mr0.functionDefinition, calls2⟩ : RMethodRec)
      = mr := Except.ok.inj (Option.some.inj hM2)
  rw [← hm2] at hc
  obtain ⟨call0, hcall0, hR⟩ := jsMapThrow_ok_mem hcalls2 hc
  obtain ⟨r, hr, hR2⟩ := jsBind_eq_ok hR
  have hr2 : (⟨r, call0.args⟩ : RCall) = c := Except.ok.inj (Option.some.inj hR2)
  rw [← hr2]
  cases r with
  | none => exact Or.inl rfl
  | some s =>
    exact Or.inr ⟨s, rfl,
      findAndRenameCall_form fuel (some entry.contract) ci0 (some ci0) vm call0 s hr⟩

/-- Witness for C8: a one-contract universe whose single call resolves
locally; the linked output's call name is the resolved identifier and
has the resolved form. -/
theorem c8_witness :
    renameToSymLinks 1
        [⟨"f.sol", [⟨some "C", [], [], [⟨some "g", "C:g", [⟨"g", some []⟩]⟩]⟩]⟩] []
      = some (Except.ok
          [⟨"f.sol", [⟨some "C", [], [],
            [⟨some "g", "C:g", [⟨some "C:g", some []⟩]⟩]⟩]⟩])
    ∧ ((⟨some "C:g", some []⟩ : RCall).name = none
        ∨ ∃ s, (⟨some "C:g", some []⟩ : RCall).name = some s ∧ isResolvedForm s) :=
  ⟨rfl,
    c8_resolved_form 1
      [⟨"f.sol", [⟨some "C", [], [], [⟨some "g", "C:g", [⟨"g", some []⟩]⟩]⟩]⟩] []
      [⟨"f.sol", [⟨some "C", [], [], [⟨some "g", "C:g", [⟨some "C:g", some []⟩]⟩]⟩]⟩]
      rfl
      ⟨"f.sol", [⟨some "C", [], [], [⟨some "g", "C:g", [⟨some "C:g", some []⟩]⟩]⟩]⟩
      (List.mem_singleton.mpr rfl)
      ⟨some "C", [], [], [⟨some "g", "C:g", [⟨some "C:g", some []⟩]⟩]⟩
      (List.mem_singleton.mpr rfl)
      ⟨some "g", "C:g", [⟨some "C:g", some []⟩]⟩
      (List.mem_singleton.mpr rfl)
      ⟨some "C:g", some []⟩
      (List.mem_singleton.mpr rfl)⟩

/-- The growth invariant is reflexive. -/
theorem growthOk_refl (p : Nat) (v : List (Option String)) : GrowthOk p v p v :=
  ⟨rfl, List.prefix_rfl, id⟩

/-- The growth invariant composes. -/
theorem growthOk_trans {a b c : Nat} {u v w : List (Option String)}
    (h1 : GrowthOk a u b v) (h2 : GrowthOk b v c w) : GrowthOk a u c w :=
  ⟨by obtain ⟨e1, -, -⟩ := h1; obtain ⟨e2, -, -⟩ := h2; omega,
   h1.2.1.trans h2.2.1, fun hn => h2.2.2 (h1.2.2 hn)⟩

/-- A sequenced fold from a diverged accumulator stays diverged. -/
theorem foldl_jsBind_none {α σ : Type} (G : α → σ → JsRun σ) (l : List α) :
    l.foldl (fun st x => jsBind st (G x)) none = none := by
  induction l with
  | nil => rfl
  | cons a t ih => exact ih

/-- A sequenced fold from a thrown accumulator keeps the exception. -/
theorem foldl_jsBind_error {α σ : Type} (G : α → σ → JsRun σ) (l : List α)
    (e : Unit) :
    l.foldl (fun st x => jsBind st (G x)) (some (Except.error e))
      = some (Except.error e) := by
  induction l with
  | nil => rfl
  | cons a t ih => exact ih

/-- A sequenced fold whose every step preserves a reflexive transitive
relation relates its successful start and end states. -/
theorem foldl_jsBind_ok {α σ : Type} (G : α → σ → JsRun σ) (R : σ → σ → Prop)
    (hrefl : ∀ s, R s s)
    (htrans : ∀ a b c, R a b → R b c → R a c)
    (hstep : ∀ x s s2, G x s = some (Except.ok s2) → R s s2) :
    ∀ (l : List α) (s0 sF : σ),
      l.foldl (fun st x => jsBind st (G x)) (some (Except.ok s0))
        = some (Except.ok sF) → R s0 sF := by
  intro l
  induction l with
  | nil =>
    intro s0 sF h
    rw [List.foldl_nil] at h
    exact (Except.ok.inj (Option.some.inj h)) ▸ hrefl s0
  | cons a t ih =>
    intro s0 sF h
    rw [List.foldl_cons] at h
    have hbeta : t.foldl (fun st x => jsBind st (G x)) (G a s0)
        = some (Except.ok sF) := h
    cases hg : G a s0 with
    | none =>
      rw [hg, foldl_jsBind_none] at hbeta
      cases hbeta
    | some e =>
      cases e with
      | error e =>
        cases e
        rw [hg, foldl_jsBind_error] at hbeta
        exact Except.noConfusion (Option.some.inj hbeta)
      | ok s1 =>
        rw [hg] at hbeta
        exact htrans _ _ _ (hstep a s0 s1 hg) (ih s1 sF hbeta)

/-- An unsuccessful membership test means non-membership. -/
theorem not_mem_of_visContains_false {l : List (Option String)}
    {x : Option String} (h : visContains l x = false) : x ∉ l := by
  intro hx
  have h2 : visContains l x = true :=
    List.any_eq_true.mpr ⟨x, hx, by simp⟩
  rw [h2] at h
  cases h

/-- Pushing an unvisited path keeps the visited list duplicate-free. -/
theorem nodup_append_singleton {l : List (Option String)} {x : Option String}
    (h : l.Nodup) (hx : x ∉ l) : (l ++ [x]).Nodup := by
  simp [List.nodup_append, h, hx]

/-- Growth of one constructor-modifier step, given growth of the
recursive extractor. -/
theorem modStep_growth (pd : PdRec) (importList : List String)
    (hPD : ∀ f v recs vis2, pd f v = some (Except.ok (recs, vis2)) →
      GrowthOk 1 v recs.length vis2) (m : String)
    (s s2 : List ContractInfo × List (Option String))
    (h : modStepBody pd importList m s = some (Except.ok s2)) :
    GrowthOk s.1.length s.2 s2.1.length s2.2 := by
  rw [modStepBody] at h
  by_cases hv : visContains s.2
      ((importList.filter (fun imp => strContainsSub imp m)).head?) = true
  · rw [if_pos hv] at h
    exact (Except.ok.inj (Option.some.inj h)) ▸ growthOk_refl _ _
  · rw [if_neg hv] at h
    obtain ⟨r, hpd, h2⟩ := jsBind_eq_ok h
    obtain ⟨hlen, hpre, hnd⟩ := hPD _ _ r.1 r.2 (by rw [Prod.mk.eta]; exact hpd)
    have hnotmem := not_mem_of_visContains_false (Bool.not_eq_true _ ▸ hv)
    refine (Except.ok.inj (Option.some.inj h2)) ▸ ⟨?_, ?_, ?_⟩
    · simp only [List.length_append, List.length_cons, List.length_nil] at hlen ⊢
      omega
    · exact (List.prefix_append s.2 _).trans hpre
    · exact fun hn => hnd (nodup_append_singleton hn hnotmem)

/-- Growth of one final-import step, given growth of the recursive
extractor. -/
theorem impStep_growth (pd : PdRec)
    (hPD : ∀ f v recs vis2, pd f v = some (Except.ok (recs, vis2)) →
      GrowthOk 1 v recs.length vis2) (nodePath : String)
    (u u2 : List ContractInfo × List (Option String))
    (h : impStepBody pd nodePath u = some (Except.ok u2)) :
    GrowthOk u.1.length u.2 u2.1.length u2.2 := by
  rw [impStepBody] at h
  by_cases hv : visContains u.2 (some nodePath) = true
  · rw [if_pos hv] at h
    exact (Except.ok.inj (Option.some.inj h)) ▸ growthOk_refl _ _
  · rw [if_neg hv] at h
    obtain ⟨r, hpd, h2⟩ := jsBind_eq_ok h
    obtain ⟨hlen, hpre, hnd⟩ := hPD _ _ r.1 r.2 (by rw [Prod.mk.eta]; exact hpd)
    have hnotmem := not_mem_of_visContains_false (Bool.not_eq_true _ ▸ hv)
    refine (Except.ok.inj (Option.some.inj h2)) ▸ ⟨?_, ?_, ?_⟩
    · simp only [List.length_append, List.length_cons, List.length_nil] at hlen ⊢
      omega
    · exact (List.prefix_append u.2 _).trans hpre
    · exact fun hn => hnd (nodup_append_singleton hn hnotmem)

/-- Growth of one inheritance-specifier step, given growth of the
recursive extractor. -/
theorem inhStep_growth (pd : PdRec) (importList : List String)
    (hPD : ∀ f v recs vis2, pd f v = some (Except.ok (recs, vis2)) →
      GrowthOk 1 v recs.length vis2) (base : String)
    (t t2 : List ContractInfo × List (Option String) × List String)
    (h : inhStepBody pd importList base t = some (Except.ok t2)) :
    GrowthOk t.1.length t.2.1 t2.1.length t2.2.1 := by
  rw [inhStepBody] at h
  by_cases hv : visContains t.2.1
      ((importList.filter (fun imp => strContainsSub imp base)).head?) = true
  · rw [if_pos hv] at h
    exact (Except.ok.inj (Option.some.inj h)) ▸ growthOk_refl _ _
  · rw [if_neg hv] at h
    obtain ⟨r, hpd, h2⟩ := jsBind_eq_ok h
    obtain ⟨hlen, hpre, hnd⟩ := hPD _ _ r.1 r.2 (by rw [Prod.mk.eta]; exact hpd)
    have hnotmem := not_mem_of_visContains_false (Bool.not_eq_true _ ▸ hv)
    refine (Except.ok.inj (Option.some.inj h2)) ▸ ⟨?_, ?_, ?_⟩
    · simp only [List.length_append, List.length_cons, List.length_nil] at hlen ⊢
      omega
    · exact (List.prefix_append t.2.1 _).trans hpre
    · exact fun hn => hnd (nodup_append_singleton hn hnotmem)

/-- Growth of one function-definition step, given growth of the
recursive extractor. -/
theorem funcStep_growth (pd : PdRec) (cl il : List String)
    (cn : Option String) (importList : List String)
    (hPD : ∀ f v recs vis2, pd f v = some (Except.ok (recs, vis2)) →
      GrowthOk 1 v recs.length vis2) (fDef : FunctionDef)
    (s s2 : List MethodRec × List ContractInfo × List (Option String))
    (h : funcStepBody pd cl il cn importList fDef s = some (Except.ok s2)) :
    GrowthOk s.2.1.length s.2.2 s2.2.1.length s2.2.2 := by
  rw [funcStepBody] at h
  by_cases hctor : fDef.isConstructor = true
  · rw [if_pos hctor] at h
    obtain ⟨s3, hfold, h2⟩ := jsBind_eq_ok h
    have hR := foldl_jsBind_ok (modStepBody pd importList)
      (fun a b => GrowthOk a.1.length a.2 b.1.length b.2)
      (fun s4 => growthOk_refl _ _)
      (fun a b c h1 h2 => growthOk_trans h1 h2)
      (modStep_growth pd importList hPD)
      fDef.modifiers (s.2.1, s.2.2) s3 hfold
    exact (Except.ok.inj (Option.some.inj h2)) ▸ hR
  · rw [if_neg hctor] at h
    exact (Except.ok.inj (Option.some.inj h)) ▸ growthOk_refl _ _

set_option maxHeartbeats 1600000 in
/-- Growth invariant of the whole extraction: every successful run adds
exactly one record per visited-list entry it appends plus one for the
processed file itself, extends the visited list, and keeps it
duplicate-free. -/
theorem processData_growth : ∀ (fuel : Nat) (fs : Fs) (file : Option String)
    (visited : List (Option String)) (il cl : List String)
    (recs : List ContractInfo) (vis2 : List (Option String)),
    processData fuel fs file visited il cl = some (Except.ok (recs, vis2)) →
    GrowthOk 1 visited recs.length vis2 := by
  intro fuel
  induction fuel with
  | zero => intro _ _ _ _ _ _ _ h; cases h
  | succ n ih =>
    intro fs file visited il cl recs vis2 h
    cases file with
    | none => exact Except.noConfusion (Option.some.inj h)
    | some f =>
      cases hlook : fsLookup fs f with
      | none =>
        rw [show processData (n + 1) fs (some f) visited il cl
            = (match fsLookup fs f with
               | none => some (Except.error ())
               | some ast => _) from rfl, hlook] at h
        exact Except.noConfusion (Option.some.inj h)
      | some ast =>
        simp only [processData, hlook] at h
        obtain ⟨s, hfold1, h2⟩ := jsBind_eq_ok h
        obtain ⟨t, hfold2, h3⟩ := jsBind_eq_ok h2
        obtain ⟨u, hfold3, h4⟩ := jsBind_eq_ok h3
        have hfin := Except.ok.inj (Option.some.inj h4)
        have hrecs : recs = u.1
            ++ [⟨(ast.contracts.map (fun c => c.name)).getLast?, t.2.2,
                ast.imports.map (fun t2 => resolveImportPath f t2), s.1⟩] :=
          ((Prod.ext_iff.mp hfin).1).symm
        have hvis : vis2 = u.2 := ((Prod.ext_iff.mp hfin).2).symm
        have hPD : ∀ f2 v r2 w2,
            processData n fs f2 v il cl = some (Except.ok (r2, w2)) →
            GrowthOk 1 v r2.length w2 :=
          fun f2 v r2 w2 hh => ih fs f2 v il cl r2 w2 hh
        have hR1 := foldl_jsBind_ok
          (funcStepBody (fun f2 v => processData n fs f2 v il cl) cl il
            ((ast.contracts.map (fun c => c.name)).getLast?)
            (ast.imports.map (fun t2 => resolveImportPath f t2)))
          (fun a b => GrowthOk a.2.1.length a.2.2 b.2.1.length b.2.2)
          (fun s4 => growthOk_refl _ _)
          (fun a b c ha hb => growthOk_trans ha hb)
          (funcStep_growth _ cl il _ _ hPD)
          (ast.contracts.flatMap (fun c => c.functions))
          ([], [], visited) s hfold1
        have hR2 := foldl_jsBind_ok
          (inhStepBody (fun f2 v => processData n fs f2 v il cl)
            (ast.imports.map (fun t2 => resolveImportPath f t2)))
          (fun a b => GrowthOk a.1.length a.2.1 b.1.length b.2.1)
          (fun s4 => growthOk_refl _ _)
          (fun a b c ha hb => growthOk_trans ha hb)
          (inhStep_growth _ _ hPD)
          (ast.contracts.flatMap (fun c => c.baseContracts))
          (s.2.1, s.2.2, []) t hfold2
        have hR3 := foldl_jsBind_ok
          (impStepBody (fun f2 v => processData n fs f2 v il cl))
          (fun a b => GrowthOk a.1.length a.2 b.1.length b.2)
          (fun s4 => growthOk_refl _ _)
          (fun a b c ha hb => growthOk_trans ha hb)
          (impStep_growth _ hPD)
          (ast.imports.map (fun t2 => resolveImportPath f t2))
          (t.1, t.2.1) u hfold3
        have hchain := growthOk_trans (growthOk_trans hR1 hR2) hR3
        obtain ⟨hlen, hpre, hnd⟩ := hchain
        refine ⟨?_, hvis ▸ hpre, hvis ▸ hnd⟩
        rw [hrecs, hvis, List.length_append]
        simp only [List.length_nil, List.length_cons] at hlen ⊢
        omega

/-- C4, amended. Extraction terminates on cyclic imports without
re-reading any pushed file: each successful run produces exactly one
record per path appended to the visited list plus one for the entry
invocation itself, extends the visited list and keeps it
duplicate-free. Only the entry file — never pre-seeded into the visited
set — can be extracted a second time when a cycle leads back to it, so
its contract's record can appear twice in the universe (see the
counterexample); every other file yields exactly one record. -/
theorem c4_visited_growth (fuel : Nat) (fs : Fs) (file : Option String)
    (visited : List (Option String)) (il cl : List String)
    (recs : List ContractInfo) (vis2 : List (Option String))
    (h : processData fuel fs file visited il cl = some (Except.ok (recs, vis2))) :
    recs.length + visited.length = vis2.length + 1
    ∧ visited <+: vis2 ∧ (visited.Nodup → vis2.Nodup) := by
  obtain ⟨hlen, hpre, hnd⟩ := processData_growth fuel fs file visited il cl recs vis2 h
  exact ⟨by omega, hpre, hnd⟩

/-- Witness for C4, amended: on the cyclic two-file universe the run
returns three records after pushing two paths (3 + 0 = 2 + 1), with the
visited list extended and duplicate-free. -/
theorem c4_witness :
    processData 10 c4Fs (some "d/A.sol") [] [] []
      = some (Except.ok
          ([⟨some "A", [], ["d/B.sol"], []⟩,
            ⟨some "B", [], ["d/A.sol"], []⟩,
            ⟨some "A", [], ["d/B.sol"], []⟩],
           [some "d/B.sol", some "d/A.sol"]))
    ∧ (([⟨some "A", [], ["d/B.sol"], []⟩,
         ⟨some "B", [], ["d/A.sol"], []⟩,
         ⟨some "A", [], ["d/B.sol"], []⟩] : List ContractInfo).length
          + ([] : List (Option String)).length
        = [some "d/B.sol", some "d/A.sol"].length + 1
      ∧ ([] : List (Option String)) <+: [some "d/B.sol", some "d/A.sol"]
      ∧ (([] : List (Option String)).Nodup
          → [some "d/B.sol", some "d/A.sol"].Nodup)) :=
  ⟨rfl, c4_visited_growth 10 c4Fs (some "d/A.sol") [] [] []
    [⟨some "A", [], ["d/B.sol"], []⟩,
     ⟨some "B", [], ["d/A.sol"], []⟩,
     ⟨some "A", [], ["d/B.sol"], []⟩]
    [some "d/B.sol", some "d/A.sol"] rfl⟩

/-- Setting a key makes it retrievable. -/
theorem mapGet_mapSet_self {α : Type} (m : List (String × α)) (k : String)
    (v : α) : mapGet (mapSet m k v) k = some v := by
  induction m with
  | nil => simp [mapSet, mapGet]
  | cons a rest ih =>
    obtain ⟨k2, v2⟩ := a
    by_cases hk : k2 = k
    · simp [mapSet, mapGet, hk]
    · simp [mapSet, mapGet, hk, ih]

/-- Setting one key leaves the others untouched. -/
theorem mapGet_mapSet_ne {α : Type} (m : List (String × α)) (k k2 : String)
    (v : α) (h : k2 ≠ k) : mapGet (mapSet m k v) k2 = mapGet m k2 := by
  have hne : ¬k = k2 := fun hh => h hh.symm
  induction m with
  | nil => simp [mapSet, mapGet, hne]
  | cons a rest ih =>
    obtain ⟨k3, v3⟩ := a
    by_cases hk : k3 = k
    · subst hk
      simp [mapSet, mapGet, hne]
    · by_cases hk2 : k3 = k2 <;> simp [mapSet, mapGet, hk, hk2, h, ih]

/-- Setting never removes a retrievable key. -/
theorem mapGet_isSome_mapSet {α : Type} (m : List (String × α))
    (k k2 : String) (v : α) (h : (mapGet m k2).isSome = true) :
    (mapGet (mapSet m k v) k2).isSome = true := by
  by_cases hk : k2 = k
  · rw [hk, mapGet_mapSet_self]; rfl
  · rw [mapGet_mapSet_ne _ _ _ _ hk]; exact h

/-- The variable-map fold never removes a retrievable key. -/
theorem mapGet_fold_preserve (l : List VarDecl) :
    ∀ (m0 : List (String × VarDecl)) (k : String),
    (mapGet m0 k).isSome = true →
    (mapGet (l.foldl (fun m vd => mapSet m vd.name vd) m0) k).isSome = true := by
  induction l with
  | nil => intro m0 k h; exact h
  | cons a t ih =>
    intro m0 k h
    exact ih (mapSet m0 a.name a) k (mapGet_isSome_mapSet _ _ _ _ h)

/-- Every variable folded into the map is retrievable afterwards. -/
theorem mapGet_fold_mem (l : List VarDecl) :
    ∀ (m0 : List (String × VarDecl)) (vd : VarDecl), vd ∈ l →
    (mapGet (l.foldl (fun m vd2 => mapSet m vd2.name vd2) m0) vd.name).isSome
      = true := by
  induction l with
  | nil => intro _ _ h; cases h
  | cons a t ih =>
    intro m0 vd hvd
    cases hvd with
    | head =>
      exact mapGet_fold_preserve t _ _ (by rw [mapGet_mapSet_self]; rfl)
    | tail _ h2 => exact ih _ vd h2

/-- C9, amended. Profiling a file with no imports records ALL of the
file's variable declarations — across every contract it defines — in a
single map stored under the name of the LAST contract defined in the
file (the empty string if there is none): the registry gains exactly
that one entry, and every variable of every contract of the file is
retrievable from it. Variables of earlier contracts are therefore keyed
under the last contract's name, not their own enclosing contract's. -/
theorem c9_last_contract_keyed (fuel : Nat) (fs : Fs) (file : String)
    (visited il cl : List String) (vt : VarTypeMap) (ast : SolFile)
    (hast : fsLookup fs file = some ast) (himp : ast.imports = []) :
    profileData (fuel + 1) fs file visited il cl vt
      = some (Except.ok (visited,
          il ++ ast.contracts.flatMap (fun c => c.events ++ c.structs),
          cl ++ ast.contracts.map (fun c => c.name),
          mapSet vt (((ast.contracts.map (fun c => c.name)).getLast?).getD "")
            ((ast.contracts.flatMap (fun c => c.varDecls)).foldl
              (fun m vd => mapSet m vd.name vd) [])))
    ∧ ∀ c ∈ ast.contracts, ∀ vd ∈ c.varDecls,
        (mapGet ((ast.contracts.flatMap (fun c2 => c2.varDecls)).foldl
            (fun m vd2 => mapSet m vd2.name vd2) []) vd.name).isSome = true := by
  constructor
  · simp only [profileData, hast, himp, List.foldl_nil, jsBind]
  · intro c hc vd hvd
    exact mapGet_fold_mem _ [] vd (List.mem_flatMap.mpr ⟨c, hc, hvd⟩)

/-- Witness for C9, amended: the two-contract file stores both
variables under the key "B" and both are retrievable. -/
theorem c9_witness :
    fsLookup c9Fs "m.sol" = some c9File
    ∧ c9File.imports = []
    ∧ (profileData 5 c9Fs "m.sol" [] [] [] []
        = some (Except.ok ([],
            [] ++ c9File.contracts.flatMap (fun c => c.events ++ c.structs),
            [] ++ c9File.contracts.map (fun c => c.name),
            mapSet [] (((c9File.contracts.map (fun c => c.name)).getLast?).getD "")
              ((c9File.contracts.flatMap (fun c => c.varDecls)).foldl
                (fun m vd => mapSet m vd.name vd) [])))
      ∧ ∀ c ∈ c9File.contracts, ∀ vd ∈ c.varDecls,
          (mapGet ((c9File.contracts.flatMap (fun c2 => c2.varDecls)).foldl
              (fun m vd2 => mapSet m vd2.name vd2) []) vd.name).isSome = true) :=
  ⟨rfl, rfl, c9_last_contract_keyed 4 c9Fs "m.sol" [] [] [] [] c9File rfl rfl⟩

end Solvis
